import Mathlib

/-!
# Sparse chunk store of the voxel sandbox

Shallow embedding of the chunk storage of `src/main.c` and `src/something.c`
(the two files hold the same code for this part): the global `chunkMap` array
with its `chunkCount` counter, `findOrCreateChunk`, `placeVoxel` and
`removeVoxel`.

Modelling conventions.
* `int` coordinates are `Int`.  The only arithmetic on them is `/ 16` and
  `% 16` followed by a sum bounded by `15 + 15*16 + 15*256`, so no operation
  overflows a 32-bit `int`; C division and remainder truncate toward zero,
  which is `Int.tdiv` and `Int.tmod`.
* `chunkCount` and slot indices are `Nat`; the counter starts at `0` and is
  only ever incremented.
* `chunkMap` is a function from slot index to chunk, `voxels` a function from
  byte index to byte.  The C globals are zero-initialised.
* A pointer into `chunkMap` is the slot index; `NULL` is `none`.
* A write `chunk->voxels[i] = v` with `i` outside `[0, VOXEL_COUNT)` has no
  defined behaviour in C: `writeVoxel`, and with it `placeVoxel`,
  `removeVoxel`, `step` and `run`, return `none` there.
* The source does not check the subscript, and the compiled program stores
  the byte and returns.  The `raw` definitions (`rawWriteVoxel` to `rawRun`) follow that write to the
  field it lands on, from the byte layout of `struct VoxelChunk`; they agree
  with the ones above wherever those return a store
  (`raw_run_of_run`).
-/

namespace VoxelStore

/-! ## Constants and data model -/

/-- The constant `MAX_CHUNKS`, defined as 1024. -/
def MAX_CHUNKS : Nat := 1024

/-- The constant `CHUNK_SIZE`, defined as 16. -/
def CHUNK_SIZE : Int := 16

/-- The constant `VOXEL_COUNT`, defined as `(CHUNK_SIZE * CHUNK_SIZE * CHUNK_SIZE)`. -/
def VOXEL_COUNT : Int := CHUNK_SIZE * CHUNK_SIZE * CHUNK_SIZE

/-- The record `struct VoxelChunk`. -/
structure VoxelChunk where
  sizeX : Int
  sizeY : Int
  sizeZ : Int
  voxels : Nat → Nat
  initialized : Bool
  cx : Int
  cy : Int
  cz : Int

/-- The two globals `chunkMap` and `chunkCount`. -/
structure Store where
  chunkMap : Nat → VoxelChunk
  chunkCount : Nat

/-- A zero-initialised `struct VoxelChunk`. -/
def zeroChunk : VoxelChunk :=
  { sizeX := 0, sizeY := 0, sizeZ := 0, voxels := fun _ => 0,
    initialized := false, cx := 0, cy := 0, cz := 0 }

/-- The store at program start: `chunkCount = 0`, every slot zeroed. -/
def empty : Store :=
  { chunkMap := fun _ => zeroChunk, chunkCount := 0 }

/-! ## findOrCreateChunk -/

/-- The test of the scan loop:
`chunkMap[i].cx == cx && chunkMap[i].cy == cy && chunkMap[i].cz == cz`. -/
def coordMatch (c : VoxelChunk) (cx cy cz : Int) : Bool :=
  c.cx == cx && c.cy == cy && c.cz == cz

/-- The loop `for (int i = 0; i < chunkCount; i++) if (match) return &chunkMap[i];`
started at index `i` with `n` iterations left; `none` when it runs to the end. -/
def scanFrom (m : Nat → VoxelChunk) (cx cy cz : Int) : Nat → Nat → Option Nat
  | _, 0 => none
  | i, n + 1 => if coordMatch (m i) cx cy cz then some i else scanFrom m cx cy cz (i + 1) n

/-- The scan part of `findOrCreateChunk`: the first resident slot holding
`(cx, cy, cz)`. -/
def findChunk (s : Store) (cx cy cz : Int) : Option Nat :=
  scanFrom s.chunkMap cx cy cz 0 s.chunkCount

/-- The chunk written by the creation branch into `chunkMap[chunkCount]`:
`memset` of the voxels to zero, the three sizes, the coordinates, the flag. -/
def newChunk (old : VoxelChunk) (cx cy cz : Int) : VoxelChunk :=
  { old with
    voxels := fun _ => 0
    sizeX := CHUNK_SIZE
    sizeY := CHUNK_SIZE
    sizeZ := CHUNK_SIZE
    cx := cx
    cy := cy
    cz := cz
    initialized := true }

/-- Assignment to one slot of `chunkMap`. -/
def setSlot (m : Nat → VoxelChunk) (i : Nat) (c : VoxelChunk) : Nat → VoxelChunk :=
  fun j => if j = i then c else m j

/-- The function `findOrCreateChunk(cx, cy, cz)`: the store after the call and the returned
pointer (slot index, `none` for `NULL`). -/
def findOrCreateChunk (s : Store) (cx cy cz : Int) : Store × Option Nat :=
  match findChunk s cx cy cz with
  | some i => (s, some i)
  | none =>
    if s.chunkCount < MAX_CHUNKS then
      ({ chunkMap := setSlot s.chunkMap s.chunkCount (newChunk (s.chunkMap s.chunkCount) cx cy cz),
         chunkCount := s.chunkCount + 1 },
       some s.chunkCount)
    else (s, none)

/-! ## placeVoxel and removeVoxel -/

/-- The chunk coordinate of a world coordinate: `x / CHUNK_SIZE` in C. -/
def chunkCoord (x : Int) : Int := Int.tdiv x CHUNK_SIZE

/-- The local offset of a world coordinate: `x % CHUNK_SIZE` in C. -/
def localOffset (x : Int) : Int := Int.tmod x CHUNK_SIZE

/-- The subscript of the voxel write:
`(x % CHUNK_SIZE) + (y % CHUNK_SIZE) * CHUNK_SIZE + (z % CHUNK_SIZE) * CHUNK_SIZE * CHUNK_SIZE`. -/
def voxelIndex (x y z : Int) : Int :=
  localOffset x + localOffset y * CHUNK_SIZE + localOffset z * CHUNK_SIZE * CHUNK_SIZE

/-- Whether a subscript is inside `voxels[VOXEL_COUNT]`. -/
def inBounds (idx : Int) : Bool := decide (0 ≤ idx) && decide (idx < VOXEL_COUNT)

/-- Assignment to one byte of a chunk's `voxels`. -/
def setVoxel (c : VoxelChunk) (k v : Nat) : VoxelChunk :=
  { c with voxels := fun j => if j = k then v else c.voxels j }

/-- The assignment `chunkMap[i].voxels[idx] = v`; `none` when `idx` is outside the array. -/
def writeVoxel (s : Store) (i : Nat) (idx : Int) (v : Nat) : Option Store :=
  if inBounds idx then
    some { s with chunkMap := setSlot s.chunkMap i (setVoxel (s.chunkMap i) idx.toNat v) }
  else none

/-- The common body of `placeVoxel` and `removeVoxel`, which differ only in
the byte `v` they store. -/
def writeAt (s : Store) (x y z : Int) (v : Nat) : Option Store :=
  match findOrCreateChunk s (chunkCoord x) (chunkCoord y) (chunkCoord z) with
  | (s1, some i) => writeVoxel s1 i (voxelIndex x y z) v
  | (s1, none) => some s1

/-- The function `placeVoxel(x, y, z)`. -/
def placeVoxel (s : Store) (x y z : Int) : Option Store := writeAt s x y z 1

/-- The function `removeVoxel(x, y, z)`. -/
def removeVoxel (s : Store) (x y z : Int) : Option Store := writeAt s x y z 0

/-- Modelled from the spec: `readVoxel`, which the source does not have.  It
looks the chunk `(x/16, y/16, z/16)` up among the resident slots without
creating it and returns the byte at `voxelIndex x y z`, or `0` (empty) when
the chunk is not resident.  A subscript outside the array is rejected
(`none`), as section 4.1 of the spec asks of a read accessor. -/
def readVoxel (s : Store) (x y z : Int) : Option Nat :=
  match findChunk s (chunkCoord x) (chunkCoord y) (chunkCoord z) with
  | some i =>
    if inBounds (voxelIndex x y z) then some ((s.chunkMap i).voxels (voxelIndex x y z).toNat)
    else none
  | none => some 0

/-! ## Call sequences -/

/-- One call into the chunk store. -/
inductive Call where
  | foc (cx cy cz : Int)
  | place (x y z : Int)
  | remove (x y z : Int)

/-- The store after one call; `none` when the call writes outside a voxel array. -/
def step (s : Store) : Call → Option Store
  | Call.foc cx cy cz => some (findOrCreateChunk s cx cy cz).1
  | Call.place x y z => placeVoxel s x y z
  | Call.remove x y z => removeVoxel s x y z

/-- The store after a sequence of calls, run in order. -/
def run (s : Store) : List Call → Option Store
  | [] => some s
  | c :: cs => (step s c).bind (fun s1 => run s1 cs)

/-- The coordinate triple stored in a chunk. -/
def coordsOf (c : VoxelChunk) : Int × Int × Int := (c.cx, c.cy, c.cz)

/-- Uniqueness invariant of the store: no two resident slots hold the same
`(cx, cy, cz)`. -/
def Unique (s : Store) : Prop :=
  ∀ i j, i < s.chunkCount → j < s.chunkCount →
    coordsOf (s.chunkMap i) = coordsOf (s.chunkMap j) → i = j

/-! ## Concrete stores and call sequences -/

/-- A call sequence mixing the three operations, with negative arguments. -/
def demoCalls : List Call :=
  [Call.place 5 5 5, Call.foc (-3) 2 7, Call.remove (-16) 0 0, Call.place (-1) 1 0,
   Call.place 20 5 5, Call.remove 5 5 5]

/-- The store after `demoCalls`. -/
def demoStore : Store := (run empty demoCalls).getD empty

/-- The store after `findOrCreateChunk(i, 0, 0)` for `i = 0, ..., 1023`: all
`MAX_CHUNKS` slots are resident. -/
def fullRow : Store :=
  { chunkMap := fun i => if i < 1024 then newChunk zeroChunk (i : Int) 0 0 else zeroChunk,
    chunkCount := 1024 }

/-- The store after `placeVoxel(15,15,15); placeVoxel(16,16,16)` from the
empty store. -/
def boundaryStore : Store :=
  (run empty [Call.place 15 15 15, Call.place 16 16 16]).getD empty

/-- Whether a call is a `placeVoxel` or `removeVoxel` whose three world
coordinates all lie in `[0, B]`. -/
def inRange (B : Int) : Call → Bool
  | Call.foc _ _ _ => false
  | Call.place x y z => decide (0 ≤ x ∧ x ≤ B ∧ 0 ≤ y ∧ y ≤ B ∧ 0 ≤ z ∧ z ≤ B)
  | Call.remove x y z => decide (0 ≤ x ∧ x ≤ B ∧ 0 ≤ y ∧ y ≤ B ∧ 0 ≤ z ∧ z ≤ B)

/-- The chunk coordinate visited by the `k`-th filling call: the base-11
digits of `k`. -/
def fillChunk (k : Nat) : Int × Int × Int :=
  (((k % 11 : Nat) : Int), (((k / 11) % 11 : Nat) : Int), ((k / 121 : Nat) : Int))

/-- The `k`-th filling call: `placeVoxel` at the origin corner of chunk
`fillChunk k`. -/
def fillCall (k : Nat) : Call :=
  Call.place (16 * (fillChunk k).1) (16 * (fillChunk k).2.1) (16 * (fillChunk k).2.2)

/-- The first `n` filling calls; for `n ≤ 1024` they touch `n` different
chunks, all with world coordinates at most `160`. -/
def fillCalls (n : Nat) : List Call := (List.range n).map fillCall

/-- All resident chunks have coordinates in `[0, 10)` on each axis. -/
def InBox (s : Store) : Prop :=
  ∀ i, i < s.chunkCount →
    (0 ≤ (s.chunkMap i).cx ∧ (s.chunkMap i).cx < 10) ∧
    (0 ≤ (s.chunkMap i).cy ∧ (s.chunkMap i).cy < 10) ∧
    (0 ≤ (s.chunkMap i).cz ∧ (s.chunkMap i).cz < 10)

/-! ## Byte layout of chunkMap

The source never checks the subscript of `chunk->voxels[...]`.  With a
negative local offset the subscript can be as low as `-15 - 15*16 - 15*256 =
-4095`, and the compiled program then stores the byte at that address and
returns.  Where that byte lies follows from the declaration of
`struct VoxelChunk` for 4-byte little-endian two's complement `int`, 1-byte
`uint8_t` and `bool`, and 4-byte alignment of `int`:

| field         | byte offset   |
|---------------|---------------|
| `sizeX`       | 0 .. 3        |
| `sizeY`       | 4 .. 7        |
| `sizeZ`       | 8 .. 11       |
| `voxels`      | 12 .. 4107    |
| `initialized` | 4108          |
| padding       | 4109 .. 4111  |
| `cx`          | 4112 .. 4115  |
| `cy`          | 4116 .. 4119  |
| `cz`          | 4120 .. 4123  |

so one array element takes 4124 bytes and `chunkMap[i].voxels[k]` is the byte
at offset `i * 4124 + 12 + k` from the start of `chunkMap`.  What lies before
`chunkMap[0]` is not determined by the source. -/

/-- The size in bytes of one `struct VoxelChunk`. -/
def CHUNK_BYTES : Int := 4124

/-- The byte offset of `voxels` inside `struct VoxelChunk`. -/
def VOXELS_OFFSET : Int := 12

/-- Store the byte `b` at byte position `p` (`0` is the least significant) of
a 32-bit little-endian two's complement `int` holding `n`. -/
def setByte (n : Int) (p b : Nat) : Int :=
  let u : Int := n % 4294967296
  let u1 : Int := u - ((u / 256 ^ p) % 256) * 256 ^ p + (b : Int) * 256 ^ p
  if u1 < 2147483648 then u1 else u1 - 4294967296

/-- Store the byte `v` at byte offset `off` of a `struct VoxelChunk`. -/
def pokeChunk (c : VoxelChunk) (off v : Nat) : VoxelChunk :=
  if off < 4 then { c with sizeX := setByte c.sizeX off v }
  else if off < 8 then { c with sizeY := setByte c.sizeY (off - 4) v }
  else if off < 12 then { c with sizeZ := setByte c.sizeZ (off - 8) v }
  else if off < 4108 then setVoxel c (off - 12) v
  else if off < 4109 then { c with initialized := decide (v ≠ 0) }
  else if off < 4112 then c
  else if off < 4116 then { c with cx := setByte c.cx (off - 4112) v }
  else if off < 4120 then { c with cy := setByte c.cy (off - 4116) v }
  else { c with cz := setByte c.cz (off - 4120) v }

/-- The assignment `chunkMap[i].voxels[idx] = v` as the compiled program
performs it: the byte at offset `i * 4124 + 12 + idx` of `chunkMap` is
stored, whichever field of whichever slot it belongs to.  The result is
`none` only when that address is outside `chunkMap` altogether. -/
def rawWriteVoxel (s : Store) (i : Nat) (idx : Int) (v : Nat) : Option Store :=
  if 0 ≤ (i : Int) * CHUNK_BYTES + VOXELS_OFFSET + idx ∧
      (i : Int) * CHUNK_BYTES + VOXELS_OFFSET + idx < (MAX_CHUNKS : Int) * CHUNK_BYTES then
    some { s with
      chunkMap := setSlot s.chunkMap
        (((i : Int) * CHUNK_BYTES + VOXELS_OFFSET + idx) / CHUNK_BYTES).toNat
        (pokeChunk
          (s.chunkMap (((i : Int) * CHUNK_BYTES + VOXELS_OFFSET + idx) / CHUNK_BYTES).toNat)
          (((i : Int) * CHUNK_BYTES + VOXELS_OFFSET + idx) % CHUNK_BYTES).toNat v) }
  else none

/-- The common body of `placeVoxel` and `removeVoxel` with the unchecked
write. -/
def rawWriteAt (s : Store) (x y z : Int) (v : Nat) : Option Store :=
  match findOrCreateChunk s (chunkCoord x) (chunkCoord y) (chunkCoord z) with
  | (s1, some i) => rawWriteVoxel s1 i (voxelIndex x y z) v
  | (s1, none) => some s1

/-- The function `placeVoxel(x, y, z)` with the unchecked write. -/
def rawPlaceVoxel (s : Store) (x y z : Int) : Option Store := rawWriteAt s x y z 1

/-- The function `removeVoxel(x, y, z)` with the unchecked write. -/
def rawRemoveVoxel (s : Store) (x y z : Int) : Option Store := rawWriteAt s x y z 0

/-- The store after one call, with the unchecked write. -/
def rawStep (s : Store) : Call → Option Store
  | Call.foc cx cy cz => some (findOrCreateChunk s cx cy cz).1
  | Call.place x y z => rawPlaceVoxel s x y z
  | Call.remove x y z => rawRemoveVoxel s x y z

/-- The store after a sequence of calls, with the unchecked write. -/
def rawRun (s : Store) : List Call → Option Store
  | [] => some s
  | c :: cs => (rawStep s c).bind (fun s1 => rawRun s1 cs)

/-- Three chunk creations followed by a `placeVoxel` with a negative `y`. -/
def strayCalls : List Call :=
  [Call.foc 5 5 0, Call.foc 0 0 0, Call.foc 5 5 1, Call.place 0 (-1) 0]

/-- The store the program is in after `strayCalls`. -/
def strayStore : Store := (rawRun empty strayCalls).getD empty

/-- Two in-range `placeVoxel` calls creating chunks `(0,0,0)` and `(0,0,1)`. -/
def pairSetup : List Call := [Call.place 0 0 0, Call.place 0 0 16]

/-- The store after `pairSetup`. -/
def pairStart : Store := (run empty pairSetup).getD empty

/-- The store the program is in after `placeVoxel(0,-1,16); placeVoxel(0,0,16)`
from `pairStart`. -/
def pairAfter : Store :=
  (rawRun pairStart [Call.place 0 (-1) 16, Call.place 0 0 16]).getD empty

/-! ## The scan loop -/

theorem coordMatch_iff (c : VoxelChunk) (cx cy cz : Int) :
    coordMatch c cx cy cz = true ↔ coordsOf c = (cx, cy, cz) := by
  simp [coordMatch, coordsOf, and_assoc]

theorem coordMatch_setVoxel (c : VoxelChunk) (k v : Nat) (cx cy cz : Int) :
    coordMatch (setVoxel c k v) cx cy cz = coordMatch c cx cy cz := rfl

theorem scanFrom_some {m : Nat → VoxelChunk} {cx cy cz : Int} {n i j : Nat}
    (h : scanFrom m cx cy cz i n = some j) :
    i ≤ j ∧ j < i + n ∧ coordMatch (m j) cx cy cz = true ∧
      ∀ k, i ≤ k → k < j → coordMatch (m k) cx cy cz = false := by
  induction n generalizing i with
  | zero => simp [scanFrom] at h
  | succ n ih =>
    unfold scanFrom at h
    by_cases hm : coordMatch (m i) cx cy cz = true
    · rw [if_pos hm] at h
      have hij : i = j := Option.some.inj h
      subst hij
      exact ⟨le_refl _, by omega, hm, fun k h1 h2 => absurd h2 (by omega)⟩
    · rw [if_neg hm] at h
      obtain ⟨h1, h2, h3, h4⟩ := ih h
      refine ⟨by omega, by omega, h3, ?_⟩
      intro k hk1 hk2
      by_cases hki : k = i
      · subst hki; simpa using hm
      · exact h4 k (by omega) hk2

theorem scanFrom_none {m : Nat → VoxelChunk} {cx cy cz : Int} {n i : Nat} :
    scanFrom m cx cy cz i n = none ↔
      ∀ k, i ≤ k → k < i + n → coordMatch (m k) cx cy cz = false := by
  induction n generalizing i with
  | zero =>
    simp only [scanFrom, true_iff]
    intro k h1 h2
    omega
  | succ n ih =>
    unfold scanFrom
    by_cases hm : coordMatch (m i) cx cy cz = true
    · rw [if_pos hm]
      constructor
      · intro h; cases h
      · intro h
        have := h i (le_refl _) (by omega)
        rw [hm] at this
        cases this
    · rw [if_neg hm, ih]
      constructor
      · intro h k hk1 hk2
        by_cases hki : k = i
        · subst hki; simpa using hm
        · exact h k (by omega) (by omega)
      · intro h k hk1 hk2
        exact h k (by omega) (by omega)

theorem scanFrom_first {m : Nat → VoxelChunk} {cx cy cz : Int} {n i j : Nat}
    (h1 : i ≤ j) (h2 : j < i + n) (h3 : coordMatch (m j) cx cy cz = true)
    (h4 : ∀ k, i ≤ k → k < j → coordMatch (m k) cx cy cz = false) :
    scanFrom m cx cy cz i n = some j := by
  induction n generalizing i with
  | zero => omega
  | succ n ih =>
    unfold scanFrom
    by_cases hij : i = j
    · subst hij
      rw [if_pos h3]
    · have hm : ¬ coordMatch (m i) cx cy cz = true := by
        rw [h4 i (le_refl _) (by omega)]; simp
      rw [if_neg hm]
      exact ih (by omega) (by omega) (fun k hk1 hk2 => h4 k (by omega) hk2)

theorem findChunk_some {s : Store} {cx cy cz : Int} {j : Nat}
    (h : findChunk s cx cy cz = some j) :
    j < s.chunkCount ∧ coordsOf (s.chunkMap j) = (cx, cy, cz) ∧
      ∀ k, k < j → coordsOf (s.chunkMap k) ≠ (cx, cy, cz) := by
  obtain ⟨_, h2, h3, h4⟩ := scanFrom_some h
  refine ⟨by omega, (coordMatch_iff _ _ _ _).1 h3, ?_⟩
  intro k hk hc
  have := h4 k (Nat.zero_le _) hk
  rw [(coordMatch_iff _ _ _ _).2 hc] at this
  cases this

theorem findChunk_none {s : Store} {cx cy cz : Int} :
    findChunk s cx cy cz = none ↔
      ∀ k, k < s.chunkCount → coordsOf (s.chunkMap k) ≠ (cx, cy, cz) := by
  unfold findChunk
  rw [scanFrom_none]
  constructor
  · intro h k hk hc
    have := h k (Nat.zero_le _) (by omega)
    rw [(coordMatch_iff _ _ _ _).2 hc] at this
    cases this
  · intro h k _ hk
    exact Bool.eq_false_iff.2 (fun hm => h k (by omega) ((coordMatch_iff _ _ _ _).1 hm))

theorem findChunk_first {s : Store} {cx cy cz : Int} {j : Nat}
    (h1 : j < s.chunkCount) (h2 : coordsOf (s.chunkMap j) = (cx, cy, cz))
    (h3 : ∀ k, k < j → coordsOf (s.chunkMap k) ≠ (cx, cy, cz)) :
    findChunk s cx cy cz = some j := by
  unfold findChunk
  refine scanFrom_first (Nat.zero_le _) (by omega) ((coordMatch_iff _ _ _ _).2 h2) ?_
  intro k _ hk
  exact Bool.eq_false_iff.2 (fun hm => h3 k hk ((coordMatch_iff _ _ _ _).1 hm))

/-! ## The three outcomes of findOrCreateChunk -/

theorem foc_found {s : Store} {cx cy cz : Int} {i : Nat}
    (h : findChunk s cx cy cz = some i) :
    findOrCreateChunk s cx cy cz = (s, some i) := by
  simp [findOrCreateChunk, h]

theorem foc_create {s : Store} {cx cy cz : Int}
    (h : findChunk s cx cy cz = none) (hc : s.chunkCount < MAX_CHUNKS) :
    findOrCreateChunk s cx cy cz =
      ({ chunkMap := setSlot s.chunkMap s.chunkCount
            (newChunk (s.chunkMap s.chunkCount) cx cy cz),
         chunkCount := s.chunkCount + 1 }, some s.chunkCount) := by
  simp [findOrCreateChunk, h, hc]

theorem foc_full {s : Store} {cx cy cz : Int}
    (h : findChunk s cx cy cz = none) (hc : ¬ s.chunkCount < MAX_CHUNKS) :
    findOrCreateChunk s cx cy cz = (s, none) := by
  simp [findOrCreateChunk, h, hc]

theorem writeAt_found {s : Store} {x y z : Int} {i : Nat} (v : Nat)
    (h : findChunk s (chunkCoord x) (chunkCoord y) (chunkCoord z) = some i) :
    writeAt s x y z v = writeVoxel s i (voxelIndex x y z) v := by
  simp [writeAt, foc_found h]

theorem writeAt_create {s : Store} {x y z : Int} (v : Nat)
    (h : findChunk s (chunkCoord x) (chunkCoord y) (chunkCoord z) = none)
    (hc : s.chunkCount < MAX_CHUNKS) :
    writeAt s x y z v =
      writeVoxel
        { chunkMap := setSlot s.chunkMap s.chunkCount
            (newChunk (s.chunkMap s.chunkCount) (chunkCoord x) (chunkCoord y) (chunkCoord z)),
          chunkCount := s.chunkCount + 1 }
        s.chunkCount (voxelIndex x y z) v := by
  simp [writeAt, foc_create h hc]

theorem writeAt_full {s : Store} {x y z : Int} (v : Nat)
    (h : findChunk s (chunkCoord x) (chunkCoord y) (chunkCoord z) = none)
    (hc : ¬ s.chunkCount < MAX_CHUNKS) :
    writeAt s x y z v = some s := by
  simp [writeAt, foc_full h hc]

/-! ## Voxel writes keep the chunk table -/

theorem writeVoxel_some {s : Store} {i : Nat} {idx : Int} (v : Nat)
    (hb : inBounds idx = true) :
    writeVoxel s i idx v =
      some { s with chunkMap := setSlot s.chunkMap i (setVoxel (s.chunkMap i) idx.toNat v) } := by
  simp [writeVoxel, hb]

theorem writeVoxel_inv {s s1 : Store} {i : Nat} {idx : Int} {v : Nat}
    (h : writeVoxel s i idx v = some s1) :
    s1.chunkCount = s.chunkCount ∧
      ∀ k, coordsOf (s1.chunkMap k) = coordsOf (s.chunkMap k) := by
  unfold writeVoxel at h
  split at h
  · cases h
    refine ⟨rfl, fun k => ?_⟩
    by_cases hk : k = i
    · subst hk; simp [setSlot, setVoxel, coordsOf]
    · simp [setSlot, hk]
  · cases h

theorem findChunk_congr {s s1 : Store} (hn : s1.chunkCount = s.chunkCount)
    (hc : ∀ k, coordsOf (s1.chunkMap k) = coordsOf (s.chunkMap k)) (cx cy cz : Int) :
    findChunk s1 cx cy cz = findChunk s cx cy cz := by
  cases h : findChunk s cx cy cz with
  | none =>
    rw [findChunk_none] at h ⊢
    intro k hk
    rw [hc k]
    exact h k (by omega)
  | some j =>
    obtain ⟨h1, h2, h3⟩ := findChunk_some h
    refine findChunk_first (by omega) (by rw [hc j]; exact h2) ?_
    intro k hk
    rw [hc k]
    exact h3 k hk

theorem inBounds_of_nonneg {x y z : Int} (hx : 0 ≤ x) (hy : 0 ≤ y) (hz : 0 ≤ z) :
    inBounds (voxelIndex x y z) = true := by
  have h16 : (0 : Int) ≤ 16 := by decide
  simp only [inBounds, voxelIndex, localOffset, CHUNK_SIZE, VOXEL_COUNT,
    Int.tmod_eq_emod hx h16, Int.tmod_eq_emod hy h16, Int.tmod_eq_emod hz h16,
    Bool.and_eq_true, decide_eq_true_eq]
  omega

/-! ## Read after write -/

theorem writeVoxel_read {s : Store} {x y z : Int} {i : Nat} (v : Nat)
    (hb : inBounds (voxelIndex x y z) = true)
    (hf : findChunk s (chunkCoord x) (chunkCoord y) (chunkCoord z) = some i) :
    ∃ s1, writeVoxel s i (voxelIndex x y z) v = some s1 ∧ s1.chunkCount = s.chunkCount ∧
      findChunk s1 (chunkCoord x) (chunkCoord y) (chunkCoord z) = some i ∧
      (s1.chunkMap i).voxels (voxelIndex x y z).toNat = v ∧
      readVoxel s1 x y z = some v := by
  have hw := writeVoxel_some (s := s) (i := i) v hb
  have hinv := writeVoxel_inv hw
  have hf1 := (findChunk_congr hinv.1 hinv.2 (chunkCoord x) (chunkCoord y) (chunkCoord z)).trans hf
  refine ⟨_, hw, rfl, hf1, by simp [setSlot, setVoxel], ?_⟩
  unfold readVoxel
  rw [hf1]
  simp [hb, setSlot, setVoxel]

theorem findChunk_created {s : Store} {cx cy cz : Int}
    (hf : findChunk s cx cy cz = none) :
    findChunk
        { chunkMap := setSlot s.chunkMap s.chunkCount (newChunk (s.chunkMap s.chunkCount) cx cy cz),
          chunkCount := s.chunkCount + 1 }
        cx cy cz = some s.chunkCount := by
  have hn := findChunk_none.1 hf
  refine findChunk_first (Nat.lt_succ_self _) (by simp [setSlot, newChunk, coordsOf]) ?_
  intro k hk
  have hne : k ≠ s.chunkCount := by omega
  simpa [setSlot, hne] using hn k hk

theorem writeAt_read {s : Store} {x y z : Int} (v : Nat)
    (hb : inBounds (voxelIndex x y z) = true)
    (hcap : findChunk s (chunkCoord x) (chunkCoord y) (chunkCoord z) ≠ none ∨
      s.chunkCount < MAX_CHUNKS) :
    ∃ s1, writeAt s x y z v = some s1 ∧ readVoxel s1 x y z = some v := by
  cases hf : findChunk s (chunkCoord x) (chunkCoord y) (chunkCoord z) with
  | some i =>
    obtain ⟨s1, h1, _, _, _, h2⟩ := writeVoxel_read v hb hf
    exact ⟨s1, (writeAt_found v hf).trans h1, h2⟩
  | none =>
    have hc : s.chunkCount < MAX_CHUNKS := by
      rcases hcap with h | h
      · exact absurd hf h
      · exact h
    obtain ⟨s1, h1, _, _, _, h2⟩ := writeVoxel_read v hb (findChunk_created hf)
    exact ⟨s1, (writeAt_create v hf hc).trans h1, h2⟩

theorem writeAt_dropped {s : Store} {x y z : Int} (v : Nat)
    (hf : findChunk s (chunkCoord x) (chunkCoord y) (chunkCoord z) = none)
    (hc : ¬ s.chunkCount < MAX_CHUNKS) :
    writeAt s x y z v = some s ∧ readVoxel s x y z = some 0 := by
  refine ⟨writeAt_full v hf hc, ?_⟩
  simp [readVoxel, hf]

/-! ## Invariants of the chunk table -/

theorem Unique_congr {s s1 : Store} (hn : s1.chunkCount = s.chunkCount)
    (hc : ∀ k, coordsOf (s1.chunkMap k) = coordsOf (s.chunkMap k)) (hu : Unique s) :
    Unique s1 := by
  intro i j hi hj hij
  rw [hc i, hc j] at hij
  exact hu i j (by omega) (by omega) hij

theorem foc_unique {s : Store} (cx cy cz : Int) (hu : Unique s) :
    Unique (findOrCreateChunk s cx cy cz).1 := by
  cases hf : findChunk s cx cy cz with
  | some i => rw [foc_found hf]; exact hu
  | none =>
    by_cases hc : s.chunkCount < MAX_CHUNKS
    · rw [foc_create hf hc]
      have hn := findChunk_none.1 hf
      intro i j hi hj hij
      simp only [setSlot] at hi hj hij
      by_cases h1 : i = s.chunkCount <;> by_cases h2 : j = s.chunkCount
      · omega
      · rw [if_pos h1, if_neg h2] at hij
        exact absurd hij.symm (hn j (by omega))
      · rw [if_neg h1, if_pos h2] at hij
        exact absurd hij (hn i (by omega))
      · rw [if_neg h1, if_neg h2] at hij
        exact hu i j (by omega) (by omega) hij
    · rw [foc_full hf hc]; exact hu

theorem foc_count (s : Store) (cx cy cz : Int) :
    s.chunkCount ≤ (findOrCreateChunk s cx cy cz).1.chunkCount ∧
      (findOrCreateChunk s cx cy cz).1.chunkCount ≤ s.chunkCount + 1 ∧
      (s.chunkCount ≤ MAX_CHUNKS → (findOrCreateChunk s cx cy cz).1.chunkCount ≤ MAX_CHUNKS) := by
  cases hf : findChunk s cx cy cz with
  | some i => rw [foc_found hf]; exact ⟨le_refl _, Nat.le_succ _, id⟩
  | none =>
    by_cases hc : s.chunkCount < MAX_CHUNKS
    · rw [foc_create hf hc]; exact ⟨Nat.le_succ _, le_refl _, fun _ => hc⟩
    · rw [foc_full hf hc]; exact ⟨le_refl _, Nat.le_succ _, id⟩

theorem foc_ptr_lt {s : Store} {cx cy cz : Int} {i : Nat}
    (h : (findOrCreateChunk s cx cy cz).2 = some i) :
    i < (findOrCreateChunk s cx cy cz).1.chunkCount := by
  cases hf : findChunk s cx cy cz with
  | some j =>
    rw [foc_found hf] at h ⊢
    cases h
    exact (findChunk_some hf).1
  | none =>
    by_cases hc : s.chunkCount < MAX_CHUNKS
    · rw [foc_create hf hc] at h ⊢
      cases h
      exact Nat.lt_succ_self _
    · rw [foc_full hf hc] at h
      cases h

theorem writeAt_table {s s1 : Store} {x y z : Int} {v : Nat}
    (h : writeAt s x y z v = some s1) :
    s1.chunkCount = (findOrCreateChunk s (chunkCoord x) (chunkCoord y) (chunkCoord z)).1.chunkCount ∧
      ∀ k, coordsOf (s1.chunkMap k) =
        coordsOf ((findOrCreateChunk s (chunkCoord x) (chunkCoord y) (chunkCoord z)).1.chunkMap k) := by
  unfold writeAt at h
  split at h
  · next s2 i heq =>
    rw [heq]
    exact writeVoxel_inv h
  · next s2 heq =>
    rw [heq]
    cases h
    exact ⟨rfl, fun _ => rfl⟩

theorem step_table {s s1 : Store} {c : Call} (h : step s c = some s1) :
    ∃ cx cy cz, s1.chunkCount = (findOrCreateChunk s cx cy cz).1.chunkCount ∧
      ∀ k, coordsOf (s1.chunkMap k) = coordsOf ((findOrCreateChunk s cx cy cz).1.chunkMap k) := by
  cases c with
  | foc cx cy cz =>
    simp only [step, Option.some.injEq] at h
    subst h
    exact ⟨cx, cy, cz, rfl, fun _ => rfl⟩
  | place x y z => exact ⟨_, _, _, writeAt_table h⟩
  | remove x y z => exact ⟨_, _, _, writeAt_table h⟩

theorem step_unique {s s1 : Store} {c : Call} (h : step s c = some s1) (hu : Unique s) :
    Unique s1 := by
  obtain ⟨cx, cy, cz, h1, h2⟩ := step_table h
  exact Unique_congr h1 h2 (foc_unique cx cy cz hu)

theorem step_count_le {s s1 : Store} {c : Call} (h : step s c = some s1)
    (hc : s.chunkCount ≤ MAX_CHUNKS) : s1.chunkCount ≤ MAX_CHUNKS := by
  obtain ⟨cx, cy, cz, h1, _⟩ := step_table h
  rw [h1]
  exact (foc_count s cx cy cz).2.2 hc

theorem run_cons {s s2 : Store} {c : Call} {cs : List Call}
    (h : run s (c :: cs) = some s2) :
    ∃ s1, step s c = some s1 ∧ run s1 cs = some s2 := by
  simp only [run] at h
  cases hs : step s c with
  | none => rw [hs] at h; cases h
  | some s1 => rw [hs] at h; exact ⟨s1, rfl, h⟩

theorem run_unique {s s2 : Store} {cs : List Call} (h : run s cs = some s2)
    (hu : Unique s) : Unique s2 := by
  induction cs generalizing s with
  | nil => cases h; exact hu
  | cons c cs ih =>
    obtain ⟨s1, h1, h2⟩ := run_cons h
    exact ih h2 (step_unique h1 hu)

theorem run_count_le {s s2 : Store} {cs : List Call} (h : run s cs = some s2)
    (hc : s.chunkCount ≤ MAX_CHUNKS) : s2.chunkCount ≤ MAX_CHUNKS := by
  induction cs generalizing s with
  | nil => cases h; exact hc
  | cons c cs ih =>
    obtain ⟨s1, h1, h2⟩ := run_cons h
    exact ih h2 (step_count_le h1 hc)

theorem empty_unique : Unique empty := by
  intro i j hi
  exact absurd hi (Nat.not_lt_zero _)

theorem fullRow_no_match (i : Nat) (hi : i < fullRow.chunkCount) :
    coordsOf (fullRow.chunkMap i) ≠ (0, 1, 0) := by
  have hi1 : i < 1024 := hi
  intro h
  have h2 : (coordsOf (fullRow.chunkMap i)).2.1 = 1 := by rw [h]
  simp [fullRow, hi1, newChunk, coordsOf] at h2

/-! ## Filling the table inside the cube of side 161 -/

theorem run_append (s : Store) (a b : List Call) :
    run s (a ++ b) = (run s a).bind (fun s1 => run s1 b) := by
  induction a generalizing s with
  | nil => simp [run]
  | cons c cs ih =>
    simp only [List.cons_append, run]
    cases step s c with
    | none => rfl
    | some s1 => simpa using ih s1

theorem chunkCoord_mul (a : Int) : chunkCoord (16 * a) = a := by
  unfold chunkCoord CHUNK_SIZE
  exact Int.mul_tdiv_cancel_left a (by decide)

theorem fillChunk_inj {i n : Nat} (hi : i < n) (hn : n < 1024) :
    fillChunk i ≠ fillChunk n := by
  intro h
  simp only [fillChunk, Prod.mk.injEq] at h
  omega

theorem fillCall_inRange (k : Nat) (hk : k < 1024) : inRange 161 (fillCall k) = true := by
  simp only [fillCall, fillChunk, inRange, decide_eq_true_eq]
  omega

theorem writeAt_create_spec {s : Store} {x y z : Int} (v : Nat)
    (hb : inBounds (voxelIndex x y z) = true)
    (hf : findChunk s (chunkCoord x) (chunkCoord y) (chunkCoord z) = none)
    (hc : s.chunkCount < MAX_CHUNKS) :
    ∃ s1, writeAt s x y z v = some s1 ∧ s1.chunkCount = s.chunkCount + 1 ∧
      coordsOf (s1.chunkMap s.chunkCount) = (chunkCoord x, chunkCoord y, chunkCoord z) ∧
      ∀ k, k ≠ s.chunkCount → coordsOf (s1.chunkMap k) = coordsOf (s.chunkMap k) := by
  have hw := (writeAt_create v hf hc).trans (writeVoxel_some v hb)
  have hinv := writeAt_table hw
  rw [foc_create hf hc] at hinv
  refine ⟨_, hw, hinv.1, ?_, ?_⟩
  · rw [hinv.2]
    simp [setSlot, newChunk, coordsOf]
  · intro k hk
    rw [hinv.2]
    simp [setSlot, hk]

theorem fill_spec (n : Nat) (hn : n ≤ 1024) :
    ∃ s, run empty (fillCalls n) = some s ∧ s.chunkCount = n ∧
      ∀ i, i < n → coordsOf (s.chunkMap i) = fillChunk i := by
  induction n with
  | zero => exact ⟨empty, rfl, rfl, fun i hi => absurd hi (Nat.not_lt_zero i)⟩
  | succ n ih =>
    obtain ⟨s, hrun, hcount, hco⟩ := ih (by omega)
    have hf : findChunk s (chunkCoord (16 * (fillChunk n).1)) (chunkCoord (16 * (fillChunk n).2.1))
        (chunkCoord (16 * (fillChunk n).2.2)) = none := by
      rw [chunkCoord_mul, chunkCoord_mul, chunkCoord_mul, findChunk_none]
      intro k hk
      rw [hcount] at hk
      rw [hco k hk]
      exact fillChunk_inj hk (by omega)
    have hb : inBounds (voxelIndex (16 * (fillChunk n).1) (16 * (fillChunk n).2.1)
        (16 * (fillChunk n).2.2)) = true := by
      apply inBounds_of_nonneg <;> simp only [fillChunk] <;> omega
    have hc : s.chunkCount < MAX_CHUNKS := by
      rw [hcount]; exact (by omega : n < 1024)
    obtain ⟨s1, hw, h1, h2, h3⟩ := writeAt_create_spec 1 hb hf hc
    refine ⟨s1, ?_, by omega, ?_⟩
    · rw [fillCalls, List.range_succ, List.map_append, run_append]
      change (run empty (fillCalls n)).bind _ = _
      rw [hrun]
      simp only [Option.some_bind, List.map_cons, List.map_nil, run, fillCall, step]
      change (writeAt s _ _ _ 1).bind _ = _
      rw [hw]
      rfl
    · intro i hi
      by_cases hin : i = n
      · subst hin
        rw [hcount] at h2
        rw [h2, chunkCoord_mul, chunkCoord_mul, chunkCoord_mul]
      · rw [h3 i (by omega)]
        exact hco i (by omega)

theorem fillCalls_inRange : ∀ c ∈ fillCalls 1024, inRange 161 c = true := by
  intro c hc
  simp only [fillCalls, List.mem_map, List.mem_range] at hc
  obtain ⟨k, hk, rfl⟩ := hc
  exact fillCall_inRange k hk

/-! ## Stores filled from inside the cube of side 160 -/

theorem chunkCoord_box {x : Int} (h0 : 0 ≤ x) (h1 : x ≤ 159) :
    0 ≤ chunkCoord x ∧ chunkCoord x < 10 := by
  unfold chunkCoord CHUNK_SIZE
  rw [Int.tdiv_eq_ediv h0 (by decide)]
  omega

theorem InBox_congr {s s1 : Store} (hn : s1.chunkCount = s.chunkCount)
    (hc : ∀ k, coordsOf (s1.chunkMap k) = coordsOf (s.chunkMap k)) (hb : InBox s) :
    InBox s1 := by
  intro i hi
  have h := hc i
  simp only [coordsOf, Prod.mk.injEq] at h
  rw [h.1, h.2.1, h.2.2]
  exact hb i (by omega)

theorem foc_inBox {s : Store} {cx cy cz : Int} (hb : InBox s)
    (hx : 0 ≤ cx ∧ cx < 10) (hy : 0 ≤ cy ∧ cy < 10) (hz : 0 ≤ cz ∧ cz < 10) :
    InBox (findOrCreateChunk s cx cy cz).1 := by
  cases hf : findChunk s cx cy cz with
  | some i => rw [foc_found hf]; exact hb
  | none =>
    by_cases hc : s.chunkCount < MAX_CHUNKS
    · rw [foc_create hf hc]
      intro i hi
      by_cases h1 : i = s.chunkCount
      · simp only [setSlot, if_pos h1, newChunk]
        exact ⟨hx, hy, hz⟩
      · simp only [setSlot, if_neg h1]
        exact hb i (by simp only at hi; omega)
    · rw [foc_full hf hc]; exact hb

theorem writeAt_inBox {s s1 : Store} {x y z : Int} {v : Nat}
    (h : writeAt s x y z v = some s1) (hb : InBox s)
    (hr : 0 ≤ x ∧ x ≤ 159 ∧ 0 ≤ y ∧ y ≤ 159 ∧ 0 ≤ z ∧ z ≤ 159) : InBox s1 := by
  obtain ⟨h1, h2⟩ := writeAt_table h
  exact InBox_congr h1 h2 (foc_inBox hb (chunkCoord_box hr.1 hr.2.1)
    (chunkCoord_box hr.2.2.1 hr.2.2.2.1) (chunkCoord_box hr.2.2.2.2.1 hr.2.2.2.2.2))

theorem step_inBox {s s1 : Store} {c : Call} (h : step s c = some s1) (hb : InBox s)
    (hr : inRange 159 c = true) : InBox s1 := by
  cases c with
  | foc cx cy cz => simp [inRange] at hr
  | place x y z =>
    simp only [inRange, decide_eq_true_eq] at hr
    exact writeAt_inBox h hb hr
  | remove x y z =>
    simp only [inRange, decide_eq_true_eq] at hr
    exact writeAt_inBox h hb hr

theorem run_inBox {s s2 : Store} {cs : List Call} (h : run s cs = some s2) (hb : InBox s)
    (hr : ∀ c ∈ cs, inRange 159 c = true) : InBox s2 := by
  induction cs generalizing s with
  | nil => cases h; exact hb
  | cons c cs ih =>
    obtain ⟨s1, h1, h2⟩ := run_cons h
    exact ih h2 (step_inBox h1 hb (hr c (List.mem_cons_self _ _)))
      (fun d hd => hr d (List.mem_cons_of_mem _ hd))

theorem count_le_of_inBox {s : Store} (hu : Unique s) (hb : InBox s) :
    s.chunkCount ≤ 1000 := by
  have h := Finset.card_le_card_of_injOn
    (s := Finset.range s.chunkCount) (t := Finset.range 1000)
    (fun i => (s.chunkMap i).cx.toNat + 10 * (s.chunkMap i).cy.toNat
      + 100 * (s.chunkMap i).cz.toNat)
    (by
      intro i hi
      have hbi := hb i (Finset.mem_range.1 hi)
      simp only [Finset.mem_range]
      omega)
    (by
      intro i hi j hj hij
      have hbi := hb i (Finset.mem_range.1 (Finset.mem_coe.1 hi))
      have hbj := hb j (Finset.mem_range.1 (Finset.mem_coe.1 hj))
      simp only at hij
      refine hu i j (Finset.mem_range.1 (Finset.mem_coe.1 hi))
        (Finset.mem_range.1 (Finset.mem_coe.1 hj)) ?_
      simp only [coordsOf, Prod.mk.injEq]
      omega)
  simpa using h

theorem empty_inBox : InBox empty := by
  intro i hi
  exact absurd hi (Nat.not_lt_zero _)

/-! ## Two writes into one chunk -/

theorem writeAt_found_spec {s : Store} {x y z : Int} {i : Nat} (v : Nat)
    (hb : inBounds (voxelIndex x y z) = true)
    (hf : findChunk s (chunkCoord x) (chunkCoord y) (chunkCoord z) = some i) :
    ∃ s1, writeAt s x y z v = some s1 ∧ s1.chunkCount = s.chunkCount ∧
      ∀ k, coordsOf (s1.chunkMap k) = coordsOf (s.chunkMap k) := by
  have hw := (writeAt_found v hf).trans (writeVoxel_some v hb)
  have hinv := writeAt_table hw
  rw [foc_found hf] at hinv
  exact ⟨_, hw, hinv.1, hinv.2⟩

/-! ## Coordinate mapping on non-negative coordinates -/

theorem localOffset_eq_emod {x : Int} (hx : 0 ≤ x) : localOffset x = x % 16 := by
  unfold localOffset CHUNK_SIZE
  exact Int.tmod_eq_emod hx (by decide)

theorem chunkCoord_eq_ediv {x : Int} (hx : 0 ≤ x) : chunkCoord x = x / 16 := by
  unfold chunkCoord CHUNK_SIZE
  exact Int.tdiv_eq_ediv hx (by decide)

theorem chunkCoord_eq_floor {x : Int} (hx : 0 ≤ x) : chunkCoord x = ⌊(x : ℚ) / 16⌋ := by
  rw [chunkCoord_eq_ediv hx]
  have h := Rat.floor_intCast_div_natCast x 16
  simpa using h.symm

theorem writeAt_defined {x y z : Int} (s : Store) (v : Nat)
    (hb : inBounds (voxelIndex x y z) = true) :
    ∃ s1, writeAt s x y z v = some s1 := by
  by_cases hcap : findChunk s (chunkCoord x) (chunkCoord y) (chunkCoord z) ≠ none ∨
      s.chunkCount < MAX_CHUNKS
  · obtain ⟨s1, h1, _⟩ := writeAt_read v hb hcap
    exact ⟨s1, h1⟩
  · rw [not_or, not_not] at hcap
    exact ⟨s, writeAt_full v hcap.1 hcap.2⟩

theorem coord_inj {x x2 : Int} (hx : 0 ≤ x) (hx2 : 0 ≤ x2)
    (hc : chunkCoord x = chunkCoord x2) (hl : localOffset x = localOffset x2) : x = x2 := by
  rw [chunkCoord_eq_ediv hx, chunkCoord_eq_ediv hx2] at hc
  rw [localOffset_eq_emod hx, localOffset_eq_emod hx2] at hl
  omega

theorem voxelIndex_inj {x y z x2 y2 z2 : Int}
    (hx : 0 ≤ x) (hy : 0 ≤ y) (hz : 0 ≤ z) (hx2 : 0 ≤ x2) (hy2 : 0 ≤ y2) (hz2 : 0 ≤ z2)
    (h : voxelIndex x y z = voxelIndex x2 y2 z2) :
    localOffset x = localOffset x2 ∧ localOffset y = localOffset y2 ∧
      localOffset z = localOffset z2 := by
  have h1 := localOffset_eq_emod hx
  have h2 := localOffset_eq_emod hy
  have h3 := localOffset_eq_emod hz
  have h4 := localOffset_eq_emod hx2
  have h5 := localOffset_eq_emod hy2
  have h6 := localOffset_eq_emod hz2
  simp only [voxelIndex, CHUNK_SIZE] at h
  omega

theorem mapping_inj {x y z x2 y2 z2 : Int}
    (hx : 0 ≤ x) (hy : 0 ≤ y) (hz : 0 ≤ z) (hx2 : 0 ≤ x2) (hy2 : 0 ≤ y2) (hz2 : 0 ≤ z2)
    (hc : (chunkCoord x, chunkCoord y, chunkCoord z) =
      (chunkCoord x2, chunkCoord y2, chunkCoord z2))
    (h : voxelIndex x y z = voxelIndex x2 y2 z2) :
    (x, y, z) = (x2, y2, z2) := by
  obtain ⟨l1, l2, l3⟩ := voxelIndex_inj hx hy hz hx2 hy2 hz2 h
  simp only [Prod.mk.injEq] at hc ⊢
  exact ⟨coord_inj hx hx2 hc.1 l1, coord_inj hy hy2 hc.2.1 l2, coord_inj hz hz2 hc.2.2 l3⟩

theorem toNat_ne_of_inBounds {a b : Int} (ha : inBounds a = true) (hb : inBounds b = true)
    (h : a ≠ b) : b.toNat ≠ a.toNat := by
  simp only [inBounds, Bool.and_eq_true, decide_eq_true_eq] at ha hb
  omega

/-! ## What a write changes -/

theorem writeVoxel_bytes {s s1 : Store} {i : Nat} {idx : Int} {v : Nat}
    (h : writeVoxel s i idx v = some s1) :
    s1.chunkCount = s.chunkCount ∧ (∀ k, k ≠ i → s1.chunkMap k = s.chunkMap k) ∧
      ∀ j, (s1.chunkMap i).voxels j = if j = idx.toNat then v else (s.chunkMap i).voxels j := by
  unfold writeVoxel at h
  split at h
  · cases h
    refine ⟨rfl, fun k hk => ?_, fun j => ?_⟩
    · simp [setSlot, hk]
    · simp [setSlot, setVoxel]
  · cases h

theorem writeAt_found_bytes {s : Store} {x y z : Int} {i : Nat} (v : Nat)
    (hb : inBounds (voxelIndex x y z) = true)
    (hf : findChunk s (chunkCoord x) (chunkCoord y) (chunkCoord z) = some i) :
    ∃ s1, writeAt s x y z v = some s1 ∧ s1.chunkCount = s.chunkCount ∧
      (∀ k, coordsOf (s1.chunkMap k) = coordsOf (s.chunkMap k)) ∧
      (∀ k, k ≠ i → s1.chunkMap k = s.chunkMap k) ∧
      ∀ j, (s1.chunkMap i).voxels j =
        if j = (voxelIndex x y z).toNat then v else (s.chunkMap i).voxels j := by
  have hw := writeVoxel_some (s := s) (i := i) v hb
  have h1 := writeVoxel_inv hw
  have h2 := writeVoxel_bytes hw
  exact ⟨_, (writeAt_found v hf).trans hw, h1.1, h1.2, h2.2.1, h2.2.2⟩

theorem writeAt_create_bytes {s : Store} {x y z : Int} (v : Nat)
    (hb : inBounds (voxelIndex x y z) = true)
    (hf : findChunk s (chunkCoord x) (chunkCoord y) (chunkCoord z) = none)
    (hc : s.chunkCount < MAX_CHUNKS) :
    ∃ s1, writeAt s x y z v = some s1 ∧ s1.chunkCount = s.chunkCount + 1 ∧
      coordsOf (s1.chunkMap s.chunkCount) = (chunkCoord x, chunkCoord y, chunkCoord z) ∧
      (∀ k, k ≠ s.chunkCount → s1.chunkMap k = s.chunkMap k) ∧
      ∀ j, (s1.chunkMap s.chunkCount).voxels j =
        if j = (voxelIndex x y z).toNat then v else 0 := by
  have hw := (writeAt_create v hf hc).trans (writeVoxel_some v hb)
  refine ⟨_, hw, rfl, by simp [setSlot, setVoxel, newChunk, coordsOf], ?_, ?_⟩
  · intro k hk
    simp [setSlot, hk]
  · intro j
    simp [setSlot, setVoxel, newChunk]

theorem readVoxel_some {s : Store} {x y z : Int} {j : Nat}
    (hq : findChunk s (chunkCoord x) (chunkCoord y) (chunkCoord z) = some j)
    (hb : inBounds (voxelIndex x y z) = true) :
    readVoxel s x y z = some ((s.chunkMap j).voxels (voxelIndex x y z).toNat) := by
  simp [readVoxel, hq, hb]

theorem readVoxel_none {s : Store} {x y z : Int}
    (hq : findChunk s (chunkCoord x) (chunkCoord y) (chunkCoord z) = none) :
    readVoxel s x y z = some 0 := by
  simp [readVoxel, hq]

theorem writeAt_frame (s : Store) (v : Nat) {x y z x2 y2 z2 : Int}
    (hx : 0 ≤ x) (hy : 0 ≤ y) (hz : 0 ≤ z) (hx2 : 0 ≤ x2) (hy2 : 0 ≤ y2) (hz2 : 0 ≤ z2)
    (hne : (x, y, z) ≠ (x2, y2, z2)) :
    ∃ s1, writeAt s x y z v = some s1 ∧
      readVoxel s1 x2 y2 z2 = readVoxel s x2 y2 z2 ∧
      ∀ k j, k < s.chunkCount → (s1.chunkMap k).voxels j ≠ (s.chunkMap k).voxels j →
        findChunk s (chunkCoord x) (chunkCoord y) (chunkCoord z) = some k ∧
          j = (voxelIndex x y z).toNat := by
  have hbp := inBounds_of_nonneg hx hy hz
  have hbq := inBounds_of_nonneg hx2 hy2 hz2
  have hidx : (chunkCoord x, chunkCoord y, chunkCoord z) =
      (chunkCoord x2, chunkCoord y2, chunkCoord z2) →
      (voxelIndex x2 y2 z2).toNat ≠ (voxelIndex x y z).toNat := fun hcc =>
    toNat_ne_of_inBounds hbp hbq (fun h => hne (mapping_inj hx hy hz hx2 hy2 hz2 hcc h))
  cases hf : findChunk s (chunkCoord x) (chunkCoord y) (chunkCoord z) with
  | some i =>
    obtain ⟨s1, hw, hn, hco, hoth, hby⟩ := writeAt_found_bytes v hbp hf
    have hfq := findChunk_congr hn hco (chunkCoord x2) (chunkCoord y2) (chunkCoord z2)
    refine ⟨s1, hw, ?_, ?_⟩
    · cases hq : findChunk s (chunkCoord x2) (chunkCoord y2) (chunkCoord z2) with
      | none => rw [readVoxel_none (hfq.trans hq), readVoxel_none hq]
      | some j =>
        rw [readVoxel_some (hfq.trans hq) hbq, readVoxel_some hq hbq]
        by_cases hji : j = i
        · subst hji
          have hcc := (findChunk_some hf).2.1.symm.trans (findChunk_some hq).2.1
          rw [hby, if_neg (hidx hcc)]
        · rw [hoth j hji]
    · intro k j _ hdiff
      by_cases hki : k = i
      · subst hki
        refine ⟨rfl, ?_⟩
        by_contra hj
        exact hdiff (by rw [hby, if_neg hj])
      · exact absurd (by rw [hoth k hki]) hdiff
  | none =>
    by_cases hc : s.chunkCount < MAX_CHUNKS
    · obtain ⟨s1, hw, hn, hnew, hoth, hby⟩ := writeAt_create_bytes v hbp hf hc
      have hno := findChunk_none.1 hf
      refine ⟨s1, hw, ?_, ?_⟩
      · by_cases hcc : (chunkCoord x, chunkCoord y, chunkCoord z) =
            (chunkCoord x2, chunkCoord y2, chunkCoord z2)
        · have hq : findChunk s (chunkCoord x2) (chunkCoord y2) (chunkCoord z2) = none := by
            rw [findChunk_none]
            intro k hk
            rw [← hcc]
            exact hno k hk
          have hq1 : findChunk s1 (chunkCoord x2) (chunkCoord y2) (chunkCoord z2) =
              some s.chunkCount := by
            refine findChunk_first (by omega) (hnew.trans hcc) ?_
            intro k hk
            rw [hoth k (by omega), ← hcc]
            exact hno k hk
          rw [readVoxel_some hq1 hbq, readVoxel_none hq, hby, if_neg (hidx hcc)]
        · cases hq : findChunk s (chunkCoord x2) (chunkCoord y2) (chunkCoord z2) with
          | none =>
            have hq1 : findChunk s1 (chunkCoord x2) (chunkCoord y2) (chunkCoord z2) = none := by
              rw [findChunk_none]
              intro k hk
              by_cases hkn : k = s.chunkCount
              · rw [hkn, hnew]; exact hcc
              · rw [hoth k hkn]
                exact findChunk_none.1 hq k (by omega)
            rw [readVoxel_none hq1, readVoxel_none hq]
          | some j =>
            obtain ⟨hj, hjm, hjf⟩ := findChunk_some hq
            have hq1 : findChunk s1 (chunkCoord x2) (chunkCoord y2) (chunkCoord z2) = some j := by
              refine findChunk_first (by omega) (by rw [hoth j (by omega)]; exact hjm) ?_
              intro k hk
              rw [hoth k (by omega)]
              exact hjf k hk
            rw [readVoxel_some hq1 hbq, readVoxel_some hq hbq, hoth j (by omega)]
      · intro k j hk hdiff
        exact absurd (by rw [hoth k (by omega)]) hdiff
    · exact ⟨s, writeAt_full v hf hc, rfl, fun k j _ hdiff => absurd rfl hdiff⟩

theorem same_chunk_pair_in_bounds (s : Store) (x1 y1 z1 x2 y2 z2 : Int)
    (hu : Unique s)
    (hx : chunkCoord x1 = chunkCoord x2) (hy : chunkCoord y1 = chunkCoord y2)
    (hz : chunkCoord z1 = chunkCoord z2)
    (hb1 : inBounds (voxelIndex x1 y1 z1) = true)
    (hb2 : inBounds (voxelIndex x2 y2 z2) = true) :
    ∃ s2, run s [Call.place x1 y1 z1, Call.place x2 y2 z2] = some s2 ∧
      s.chunkCount ≤ s2.chunkCount ∧ s2.chunkCount ≤ s.chunkCount + 1 ∧
      ((∃! i, i < s2.chunkCount ∧
          coordsOf (s2.chunkMap i) = (chunkCoord x1, chunkCoord y1, chunkCoord z1)) ∨
       ((∀ i, i < s2.chunkCount →
          coordsOf (s2.chunkMap i) ≠ (chunkCoord x1, chunkCoord y1, chunkCoord z1)) ∧
        MAX_CHUNKS ≤ s.chunkCount)) := by
  have hrun : ∀ s1 s2, placeVoxel s x1 y1 z1 = some s1 → placeVoxel s1 x2 y2 z2 = some s2 →
      run s [Call.place x1 y1 z1, Call.place x2 y2 z2] = some s2 := by
    intro s1 s2 h1 h2
    simp [run, step, h1, h2]
  cases hf : findChunk s (chunkCoord x1) (chunkCoord y1) (chunkCoord z1) with
  | some i =>
    obtain ⟨s1, hw1, hn1, hc1⟩ := writeAt_found_spec 1 hb1 hf
    have hf1 : findChunk s1 (chunkCoord x2) (chunkCoord y2) (chunkCoord z2) = some i := by
      rw [← hx, ← hy, ← hz, findChunk_congr hn1 hc1]; exact hf
    obtain ⟨s2, hw2, hn2, hc2⟩ := writeAt_found_spec 1 hb2 hf1
    obtain ⟨hi, hm, _⟩ := findChunk_some hf
    refine ⟨s2, hrun s1 s2 hw1 hw2, by omega, by omega, Or.inl ⟨i, ⟨by omega, ?_⟩, ?_⟩⟩
    · rw [hc2, hc1]; exact hm
    · rintro j ⟨hj, hjm⟩
      rw [hc2, hc1] at hjm
      exact hu j i (by omega) hi (hjm.trans hm.symm)
  | none =>
    by_cases hc : s.chunkCount < MAX_CHUNKS
    · obtain ⟨s1, hw1, hn1, hnew, hold⟩ := writeAt_create_spec 1 hb1 hf hc
      have hno := findChunk_none.1 hf
      have hf1 : findChunk s1 (chunkCoord x2) (chunkCoord y2) (chunkCoord z2)
          = some s.chunkCount := by
        rw [← hx, ← hy, ← hz]
        refine findChunk_first (by omega) hnew ?_
        intro k hk
        rw [hold k (by omega)]
        exact hno k hk
      obtain ⟨s2, hw2, hn2, hc2⟩ := writeAt_found_spec 1 hb2 hf1
      refine ⟨s2, hrun s1 s2 hw1 hw2, by omega, by omega,
        Or.inl ⟨s.chunkCount, ⟨by omega, ?_⟩, ?_⟩⟩
      · rw [hc2]; exact hnew
      · rintro j ⟨hj, hjm⟩
        by_contra hne
        rw [hc2, hold j hne] at hjm
        exact hno j (by omega) hjm
    · have hw1 := writeAt_full 1 hf hc
      have hw2 : writeAt s x2 y2 z2 1 = some s := by
        refine writeAt_full 1 ?_ hc
        rw [← hx, ← hy, ← hz]; exact hf
      exact ⟨s, hrun s s hw1 hw2, le_refl _, Nat.le_succ _,
        Or.inr ⟨findChunk_none.1 hf, by omega⟩⟩

/-! ## The unchecked write

Where the subscript is inside the array the byte-level write is the array
write, so every result of `writeAt`, `step` and `run` is also the result of
the `raw` version; and no byte-level write touches `chunkCount`. -/

theorem pokeChunk_voxel (c : VoxelChunk) (k v : Nat) (hk : k < 4096) :
    pokeChunk c (12 + k) v = setVoxel c k v := by
  unfold pokeChunk
  rw [if_neg (by omega), if_neg (by omega), if_neg (by omega), if_pos (by omega),
    Nat.add_sub_cancel_left]

theorem raw_writeVoxel_eq (s : Store) {i : Nat} {idx : Int} (v : Nat)
    (hi : i < MAX_CHUNKS) (hb : inBounds idx = true) :
    rawWriteVoxel s i idx v = writeVoxel s i idx v := by
  have hb2 := hb
  simp only [inBounds, VOXEL_COUNT, CHUNK_SIZE, Bool.and_eq_true, decide_eq_true_eq] at hb2
  have hi2 : i < 1024 := hi
  have hrange : 0 ≤ (i : Int) * CHUNK_BYTES + VOXELS_OFFSET + idx ∧
      (i : Int) * CHUNK_BYTES + VOXELS_OFFSET + idx < (MAX_CHUNKS : Int) * CHUNK_BYTES := by
    simp only [CHUNK_BYTES, VOXELS_OFFSET, MAX_CHUNKS]
    omega
  have hdiv : (((i : Int) * CHUNK_BYTES + VOXELS_OFFSET + idx) / CHUNK_BYTES).toNat = i := by
    simp only [CHUNK_BYTES, VOXELS_OFFSET]
    omega
  have hmod : (((i : Int) * CHUNK_BYTES + VOXELS_OFFSET + idx) % CHUNK_BYTES).toNat
      = 12 + idx.toNat := by
    simp only [CHUNK_BYTES, VOXELS_OFFSET]
    omega
  unfold rawWriteVoxel writeVoxel
  rw [if_pos hrange, if_pos hb, hdiv, hmod, pokeChunk_voxel _ _ _ (by omega)]

theorem raw_writeAt_of_writeAt {s s1 : Store} {x y z : Int} {v : Nat}
    (hc : s.chunkCount ≤ MAX_CHUNKS) (h : writeAt s x y z v = some s1) :
    rawWriteAt s x y z v = some s1 := by
  unfold writeAt at h
  unfold rawWriteAt
  split at h
  · next s2 i heq =>
    have hi : i < MAX_CHUNKS := by
      have h1 := @foc_ptr_lt s (chunkCoord x) (chunkCoord y) (chunkCoord z) i (by rw [heq])
      have h2 := (foc_count s (chunkCoord x) (chunkCoord y) (chunkCoord z)).2.2 hc
      omega
    have hb : inBounds (voxelIndex x y z) = true := by
      unfold writeVoxel at h
      by_contra hb
      rw [if_neg hb] at h
      cases h
    rw [raw_writeVoxel_eq s2 v hi hb]
    exact h
  · exact h

theorem raw_step_of_step {s s1 : Store} {c : Call}
    (hc : s.chunkCount ≤ MAX_CHUNKS) (h : step s c = some s1) :
    rawStep s c = some s1 := by
  cases c with
  | foc cx cy cz => exact h
  | place x y z => exact raw_writeAt_of_writeAt hc h
  | remove x y z => exact raw_writeAt_of_writeAt hc h

theorem raw_run_of_run {s s2 : Store} {cs : List Call}
    (hc : s.chunkCount ≤ MAX_CHUNKS) (h : run s cs = some s2) :
    rawRun s cs = some s2 := by
  induction cs generalizing s with
  | nil => exact h
  | cons c cs ih =>
    obtain ⟨s1, h1, h2⟩ := run_cons h
    simp only [rawRun, raw_step_of_step hc h1, Option.some_bind]
    exact ih (step_count_le h1 hc) h2

theorem raw_writeVoxel_count {s s1 : Store} {i : Nat} {idx : Int} {v : Nat}
    (h : rawWriteVoxel s i idx v = some s1) : s1.chunkCount = s.chunkCount := by
  unfold rawWriteVoxel at h
  split at h
  · cases h; rfl
  · cases h

theorem raw_step_count_le {s s1 : Store} {c : Call} (h : rawStep s c = some s1)
    (hc : s.chunkCount ≤ MAX_CHUNKS) : s1.chunkCount ≤ MAX_CHUNKS := by
  have key : ∀ x y z v, rawWriteAt s x y z v = some s1 → s1.chunkCount ≤ MAX_CHUNKS := by
    intro x y z v hw
    have h2 := (foc_count s (chunkCoord x) (chunkCoord y) (chunkCoord z)).2.2 hc
    unfold rawWriteAt at hw
    split at hw
    · next s2 i heq =>
      rw [heq] at h2
      rw [raw_writeVoxel_count hw]
      exact h2
    · next s2 heq =>
      rw [heq] at h2
      cases hw
      exact h2
  cases c with
  | foc cx cy cz =>
    simp only [rawStep, Option.some.injEq] at h
    subst h
    exact (foc_count s cx cy cz).2.2 hc
  | place x y z => exact key x y z 1 h
  | remove x y z => exact key x y z 0 h

theorem raw_run_count_le {s s2 : Store} {cs : List Call} (h : rawRun s cs = some s2)
    (hc : s.chunkCount ≤ MAX_CHUNKS) : s2.chunkCount ≤ MAX_CHUNKS := by
  induction cs generalizing s with
  | nil => cases h; exact hc
  | cons c cs ih =>
    simp only [rawRun] at h
    cases hs : rawStep s c with
    | none => rw [hs] at h; cases h
    | some s1 =>
      rw [hs] at h
      exact ih h (raw_step_count_le hs hc)

/-! ## Claims -/

/-- C1 as stated fails.  The 1024 calls `fillCalls 1024` are `placeVoxel`
calls with all coordinates in `[0, 160]`, so inside the claimed range
`[0, 161]`; they make 1024 chunks resident.  `placeVoxel(160,160,160)`, also
in range, then finds the table full: it returns with the store unchanged and
a read of `(160,160,160)` gives empty (`0`), not solid. -/
theorem C1_counterexample :
    (∀ c ∈ fillCalls 1024, inRange 161 c = true) ∧
      inRange 161 (Call.place 160 160 160) = true ∧
      ∃ s, run empty (fillCalls 1024) = some s ∧ s.chunkCount = 1024 ∧
        placeVoxel s 160 160 160 = some s ∧ readVoxel s 160 160 160 = some 0 := by
  refine ⟨fillCalls_inRange, by decide, ?_⟩
  obtain ⟨s, hrun, hcount, hco⟩ := fill_spec 1024 (le_refl _)
  have hf : findChunk s (chunkCoord 160) (chunkCoord 160) (chunkCoord 160) = none := by
    rw [findChunk_none]
    intro k hk hc
    rw [hcount] at hk
    rw [hco k hk] at hc
    have h2 : (fillChunk k).2.2 = chunkCoord 160 := by rw [hc]
    have h3 : chunkCoord 160 = 10 := by decide
    rw [h3] at h2
    simp only [fillChunk] at h2
    omega
  have hc : ¬ s.chunkCount < MAX_CHUNKS := by
    rw [hcount]; decide
  exact ⟨s, hrun, hcount, writeAt_dropped 1 hf hc⟩

/-- C1, amended: for all world coordinates `x, y, z` in `[0, 159]` (below
`16 * 10`) and every store reached from the empty store by `placeVoxel` and
`removeVoxel` calls on coordinates in that same range, `placeVoxel(x,y,z)`
returns and a read of `(x,y,z)` in the resulting store gives solid (`1`). -/
theorem C1_place_then_read (calls : List Call) (s : Store) (x y z : Int)
    (hr : ∀ c ∈ calls, inRange 159 c = true) (h : run empty calls = some s)
    (hx : 0 ≤ x ∧ x ≤ 159) (hy : 0 ≤ y ∧ y ≤ 159) (hz : 0 ≤ z ∧ z ≤ 159) :
    ∃ s1, placeVoxel s x y z = some s1 ∧ readVoxel s1 x y z = some 1 := by
  have hle : s.chunkCount ≤ 1000 :=
    count_le_of_inBox (run_unique h empty_unique) (run_inBox h empty_inBox hr)
  have hc : s.chunkCount < MAX_CHUNKS := lt_of_le_of_lt hle (by decide)
  exact writeAt_read 1 (inBounds_of_nonneg hx.1 hy.1 hz.1) (Or.inr hc)

theorem C1_place_then_read_witness :
    (∀ c ∈ [Call.place 15 15 15, Call.place 16 16 16], inRange 159 c = true) ∧
      run empty [Call.place 15 15 15, Call.place 16 16 16] = some boundaryStore ∧
      ∃ s1, placeVoxel boundaryStore 159 17 0 = some s1 ∧ readVoxel s1 159 17 0 = some 1 :=
  ⟨by decide, rfl,
    C1_place_then_read [Call.place 15 15 15, Call.place 16 16 16] boundaryStore 159 17 0
      (by decide) rfl (by decide) (by decide) (by decide)⟩

/-- C2: for non-negative world coordinates `x, y, z` and every store with
`chunkCount ≤ 1024`, `removeVoxel(x,y,z)` returns, and a read of `(x,y,z)` in
the resulting store gives empty (`0`), whether the chunk was resident, was
created by the call, or could not be created because the table is full.  The
bound on `chunkCount` keeps the scanned slots inside `chunkMap`; the proof
does not otherwise depend on it. -/
theorem C2_remove_then_read (s : Store) (x y z : Int)
    (hx : 0 ≤ x) (hy : 0 ≤ y) (hz : 0 ≤ z) (_hc : s.chunkCount ≤ MAX_CHUNKS) :
    ∃ s1, removeVoxel s x y z = some s1 ∧ readVoxel s1 x y z = some 0 := by
  by_cases hcap : findChunk s (chunkCoord x) (chunkCoord y) (chunkCoord z) ≠ none ∨
      s.chunkCount < MAX_CHUNKS
  · exact writeAt_read 0 (inBounds_of_nonneg hx hy hz) hcap
  · rw [not_or, not_not] at hcap
    exact ⟨s, writeAt_dropped 0 hcap.1 hcap.2⟩

theorem C2_remove_then_read_witness :
    (0 : Int) ≤ 37 ∧ (0 : Int) ≤ 0 ∧ (0 : Int) ≤ 250 ∧ fullRow.chunkCount ≤ MAX_CHUNKS ∧
      ∃ s1, removeVoxel fullRow 37 0 250 = some s1 ∧ readVoxel s1 37 0 250 = some 0 :=
  ⟨by decide, by decide, by decide, by decide,
    C2_remove_then_read fullRow 37 0 250 (by decide) (by decide) (by decide) (by decide)⟩

/-- C3, failing input.  After `findOrCreateChunk(5,5,0)`,
`findOrCreateChunk(0,0,0)` and `findOrCreateChunk(5,5,1)` the resident slots
hold `(5,5,0)`, `(0,0,0)`, `(5,5,1)`, all different.  `placeVoxel(0,-1,0)`
maps to chunk `(0,0,0)`, found in slot 1, with subscript `-16`; the unchecked
write stores `1` at byte `1*4124 + 12 - 16 = 4120` of `chunkMap`, the low byte
of `chunkMap[0].cz`.  The call returns with slot 0 holding `(5,5,1)`, the
triple of slot 2: the uniqueness invariant is broken by a call sequence. -/
theorem C3_stray_write_breaks_uniqueness :
    (run empty (strayCalls.take 3)).map
        (fun s => (s.chunkCount, coordsOf (s.chunkMap 0), coordsOf (s.chunkMap 1),
          coordsOf (s.chunkMap 2))) = some (3, (5, 5, 0), (0, 0, 0), (5, 5, 1)) ∧
      strayCalls.drop 3 = [Call.place 0 (-1) 0] ∧
      (chunkCoord 0, chunkCoord (-1), chunkCoord 0) = (0, 0, 0) ∧
      voxelIndex 0 (-1) 0 = -16 ∧
      (1 : Int) * CHUNK_BYTES + VOXELS_OFFSET + (-16) = 0 * CHUNK_BYTES + 4120 ∧
      rawRun empty strayCalls = some strayStore ∧
      strayStore.chunkCount = 3 ∧
      coordsOf (strayStore.chunkMap 0) = (5, 5, 1) ∧
      coordsOf (strayStore.chunkMap 1) = (0, 0, 0) ∧
      coordsOf (strayStore.chunkMap 2) = (5, 5, 1) ∧
      ¬ Unique strayStore := by
  refine ⟨by decide, rfl, by decide, by decide, by decide, rfl, rfl, by decide, by decide,
    by decide, ?_⟩
  intro hu
  have h := hu 0 2 (by decide) (by decide) (by decide)
  omega

/-- C5: capacity exhaustion fails cleanly.  In a store holding 1024 resident
chunks, `findOrCreateChunk(cx,cy,cz)` for a triple no resident chunk carries
returns `NULL` and the store it leaves is the store it was given;
`placeVoxel` and `removeVoxel` at every world coordinate mapping to that
triple return with the store unchanged too.  So `chunkCount` stays 1024 and
the coordinates and voxel bytes of all resident chunks are as before. -/
theorem C5_exhaustion (s : Store) (cx cy cz : Int)
    (hfull : s.chunkCount = 1024)
    (hno : ∀ i, i < s.chunkCount → coordsOf (s.chunkMap i) ≠ (cx, cy, cz)) :
    findOrCreateChunk s cx cy cz = (s, none) ∧
      ∀ x y z, chunkCoord x = cx → chunkCoord y = cy → chunkCoord z = cz →
        placeVoxel s x y z = some s ∧ removeVoxel s x y z = some s := by
  have hf : findChunk s cx cy cz = none := findChunk_none.2 hno
  have hc : ¬ s.chunkCount < MAX_CHUNKS := by
    rw [hfull]; decide
  refine ⟨foc_full hf hc, ?_⟩
  intro x y z h1 h2 h3
  subst h1 h2 h3
  exact ⟨writeAt_full 1 hf hc, writeAt_full 0 hf hc⟩

theorem C5_exhaustion_witness :
    fullRow.chunkCount = 1024 ∧
      findOrCreateChunk fullRow 0 1 0 = (fullRow, none) ∧
      placeVoxel fullRow (-3) 20 7 = some fullRow ∧
      removeVoxel fullRow (-3) 20 7 = some fullRow :=
  ⟨rfl, (C5_exhaustion fullRow 0 1 0 rfl fullRow_no_match).1,
    (C5_exhaustion fullRow 0 1 0 rfl fullRow_no_match).2 (-3) 20 7 (by decide) (by decide)
      (by decide)⟩

/-- C6, failing input.  `placeVoxel(0,0,0); placeVoxel(0,0,16)` from the empty
store leaves chunks `(0,0,0)` and `(0,0,1)` in slots 0 and 1.  The world
coordinates `p = (0,-1,16)` and `q = (0,0,16)` both map to chunk `(0,0,1)`.
`placeVoxel(p)` finds it in slot 1 and writes at subscript `-16`, unchecked:
byte `4120` of `chunkMap`, the low byte of `chunkMap[0].cz`, so slot 0 becomes
a second `(0,0,1)`.  After `placeVoxel(q)` the count is still 2, but two
resident chunks carry the chunk coordinate of `p` and `q`, not exactly one. -/
theorem C6_stray_write_duplicates_chunk :
    run empty pairSetup = some pairStart ∧
      pairStart.chunkCount = 2 ∧
      coordsOf (pairStart.chunkMap 0) = (0, 0, 0) ∧
      coordsOf (pairStart.chunkMap 1) = (0, 0, 1) ∧
      (chunkCoord 0, chunkCoord (-1), chunkCoord 16) = (0, 0, 1) ∧
      (chunkCoord 0, chunkCoord 0, chunkCoord 16) = (0, 0, 1) ∧
      voxelIndex 0 (-1) 16 = -16 ∧
      (1 : Int) * CHUNK_BYTES + VOXELS_OFFSET + (-16) = 0 * CHUNK_BYTES + 4120 ∧
      rawRun pairStart [Call.place 0 (-1) 16, Call.place 0 0 16] = some pairAfter ∧
      pairAfter.chunkCount = 2 ∧
      coordsOf (pairAfter.chunkMap 0) = (0, 0, 1) ∧
      coordsOf (pairAfter.chunkMap 1) = (0, 0, 1) ∧
      ¬ ∃! i, i < pairAfter.chunkCount ∧ coordsOf (pairAfter.chunkMap i) = (0, 0, 1) := by
  refine ⟨rfl, rfl, by decide, by decide, by decide, by decide, by decide, by decide, rfl, rfl,
    by decide, by decide, ?_⟩
  rintro ⟨i, _, hi⟩
  have h0 := hi 0 ⟨by decide, by decide⟩
  have h1 := hi 1 ⟨by decide, by decide⟩
  omega

/-- C7: round trip with idempotent chunk creation.  From the empty store, and
from every store with `chunkCount < 1024` in which chunk `(0,0,0)` is not
resident, `placeVoxel(5,5,5); removeVoxel(5,5,5); placeVoxel(5,5,5)` returns a
store in which chunk `(0,0,0)` is the slot created by the first call, its byte
at index `5 + 5*16 + 5*256 = 1365` is `1`, a read of `(5,5,5)` gives solid,
and `chunkCount` is exactly one more than at the start. -/
theorem C7_round_trip (s : Store) (hc : s.chunkCount < 1024)
    (hno : ∀ i, i < s.chunkCount → coordsOf (s.chunkMap i) ≠ (0, 0, 0)) :
    ∃ s3, run s [Call.place 5 5 5, Call.remove 5 5 5, Call.place 5 5 5] = some s3 ∧
      s3.chunkCount = s.chunkCount + 1 ∧
      findChunk s3 0 0 0 = some s.chunkCount ∧
      voxelIndex 5 5 5 = 5 + 5 * 16 + 5 * 256 ∧ voxelIndex 5 5 5 = 1365 ∧
      (s3.chunkMap s.chunkCount).voxels 1365 = 1 ∧
      readVoxel s3 5 5 5 = some 1 := by
  have hb : inBounds (voxelIndex 5 5 5) = true := by decide
  have hf : findChunk s (chunkCoord 5) (chunkCoord 5) (chunkCoord 5) = none :=
    findChunk_none.2 hno
  obtain ⟨s1, hw1, hn1, hf1, _, _⟩ := writeVoxel_read 1 hb (findChunk_created hf)
  have hp1 : placeVoxel s 5 5 5 = some s1 :=
    (writeAt_create 1 hf (show s.chunkCount < MAX_CHUNKS from hc)).trans hw1
  obtain ⟨s2, hw2, hn2, hf2, _, _⟩ := writeVoxel_read 0 hb hf1
  have hp2 : removeVoxel s1 5 5 5 = some s2 := (writeAt_found 0 hf1).trans hw2
  obtain ⟨s3, hw3, hn3, hf3, hv3, hr3⟩ := writeVoxel_read 1 hb hf2
  have hp3 : placeVoxel s2 5 5 5 = some s3 := (writeAt_found 1 hf2).trans hw3
  refine ⟨s3, ?_, ?_, hf3, by decide, by decide, hv3, hr3⟩
  · simp [run, step, hp1, hp2, hp3]
  · rw [hn3, hn2, hn1]

theorem C7_round_trip_witness :
    empty.chunkCount < 1024 ∧
      ∃ s3, run empty [Call.place 5 5 5, Call.remove 5 5 5, Call.place 5 5 5] = some s3 ∧
        s3.chunkCount = empty.chunkCount + 1 ∧
        findChunk s3 0 0 0 = some empty.chunkCount ∧
        voxelIndex 5 5 5 = 5 + 5 * 16 + 5 * 256 ∧ voxelIndex 5 5 5 = 1365 ∧
        (s3.chunkMap empty.chunkCount).voxels 1365 = 1 ∧
        readVoxel s3 5 5 5 = some 1 :=
  ⟨by decide, C7_round_trip empty (by decide) (fun i hi => absurd hi (Nat.not_lt_zero i))⟩

/-- C8: chunk boundary.  From the empty store, `placeVoxel(15,15,15)` and
`placeVoxel(16,16,16)` leave `chunkCount = 2` with two distinct resident
chunks, `(0,0,0)` in slot 0 and `(1,1,1)` in slot 1; the first has byte `1` at
index `15 + 15*16 + 15*256 = 4095`, the second byte `1` at index `0`, every
other byte of both is `0`, and each of the two voxels reads back solid. -/
theorem C8_chunk_boundary :
    run empty [Call.place 15 15 15, Call.place 16 16 16] = some boundaryStore ∧
      boundaryStore.chunkCount = 2 ∧
      coordsOf (boundaryStore.chunkMap 0) = (0, 0, 0) ∧
      coordsOf (boundaryStore.chunkMap 1) = (1, 1, 1) ∧
      voxelIndex 15 15 15 = 15 + 15 * 16 + 15 * 256 ∧ voxelIndex 15 15 15 = 4095 ∧
      voxelIndex 16 16 16 = 0 ∧
      (boundaryStore.chunkMap 0).voxels 4095 = 1 ∧
      (boundaryStore.chunkMap 1).voxels 0 = 1 ∧
      (∀ k, k ≠ 4095 → (boundaryStore.chunkMap 0).voxels k = 0) ∧
      (∀ k, k ≠ 0 → (boundaryStore.chunkMap 1).voxels k = 0) ∧
      readVoxel boundaryStore 15 15 15 = some 1 ∧
      readVoxel boundaryStore 16 16 16 = some 1 := by
  refine ⟨rfl, rfl, by decide, by decide, by decide, by decide, by decide, by decide,
    by decide, ?_, ?_, by decide, by decide⟩
  · intro k hk
    show (if k = 4095 then 1 else 0) = 0
    rw [if_neg hk]
  · intro k hk
    show (if k = 0 then 1 else 0) = 0
    rw [if_neg hk]

/-- C9: postcondition of `findOrCreateChunk`.  When no resident chunk carries
`(cx,cy,cz)` and `chunkCount = n < 1024`, the call returns slot `n`; that slot
then has coordinates `(cx,cy,cz)`, all 4096 voxel bytes `0`,
`initialized = true` and `sizeX = sizeY = sizeZ = 16`; `chunkCount` is `n + 1`
and every other slot, so each of `0..n-1`, is as before.  When some resident
chunk carries the triple, the call returns the first such slot and leaves the
store as it was. -/
theorem C9_findOrCreate_post (s : Store) (cx cy cz : Int) :
    ((∀ i, i < s.chunkCount → coordsOf (s.chunkMap i) ≠ (cx, cy, cz)) →
      s.chunkCount < 1024 →
        (findOrCreateChunk s cx cy cz).2 = some s.chunkCount ∧
        (findOrCreateChunk s cx cy cz).1.chunkCount = s.chunkCount + 1 ∧
        coordsOf ((findOrCreateChunk s cx cy cz).1.chunkMap s.chunkCount) = (cx, cy, cz) ∧
        (∀ k, k < 4096 →
          ((findOrCreateChunk s cx cy cz).1.chunkMap s.chunkCount).voxels k = 0) ∧
        ((findOrCreateChunk s cx cy cz).1.chunkMap s.chunkCount).initialized = true ∧
        ((findOrCreateChunk s cx cy cz).1.chunkMap s.chunkCount).sizeX = 16 ∧
        ((findOrCreateChunk s cx cy cz).1.chunkMap s.chunkCount).sizeY = 16 ∧
        ((findOrCreateChunk s cx cy cz).1.chunkMap s.chunkCount).sizeZ = 16 ∧
        ∀ j, j ≠ s.chunkCount →
          (findOrCreateChunk s cx cy cz).1.chunkMap j = s.chunkMap j) ∧
    ((∃ i, i < s.chunkCount ∧ coordsOf (s.chunkMap i) = (cx, cy, cz)) →
      ∃ j, findOrCreateChunk s cx cy cz = (s, some j) ∧ j < s.chunkCount ∧
        coordsOf (s.chunkMap j) = (cx, cy, cz) ∧
        ∀ k, k < j → coordsOf (s.chunkMap k) ≠ (cx, cy, cz)) := by
  constructor
  · intro hno hc
    have hf : findChunk s cx cy cz = none := findChunk_none.2 hno
    rw [foc_create hf (show s.chunkCount < MAX_CHUNKS from hc)]
    refine ⟨rfl, rfl, by simp [setSlot, newChunk, coordsOf], ?_, by simp [setSlot, newChunk],
      by simp [setSlot, newChunk, CHUNK_SIZE], by simp [setSlot, newChunk, CHUNK_SIZE],
      by simp [setSlot, newChunk, CHUNK_SIZE], ?_⟩
    · intro k _
      simp [setSlot, newChunk]
    · intro j hj
      simp [setSlot, hj]
  · rintro ⟨i, hi, hm⟩
    cases hf : findChunk s cx cy cz with
    | none => exact absurd hm (findChunk_none.1 hf i hi)
    | some j =>
      obtain ⟨h1, h2, h3⟩ := findChunk_some hf
      exact ⟨j, foc_found hf, h1, h2, h3⟩

theorem C9_findOrCreate_post_witness :
    ((findOrCreateChunk demoStore 9 9 9).2 = some 4 ∧
      (findOrCreateChunk demoStore 9 9 9).1.chunkCount = 5 ∧
      coordsOf ((findOrCreateChunk demoStore 9 9 9).1.chunkMap 4) = (9, 9, 9)) ∧
    ∃ j, findOrCreateChunk demoStore (-1) 0 0 = (demoStore, some j) ∧ j < demoStore.chunkCount ∧
      coordsOf (demoStore.chunkMap j) = (-1, 0, 0) ∧
      ∀ k, k < j → coordsOf (demoStore.chunkMap k) ≠ (-1, 0, 0) :=
  ⟨⟨((C9_findOrCreate_post demoStore 9 9 9).1 (by decide) (by decide)).1,
     ((C9_findOrCreate_post demoStore 9 9 9).1 (by decide) (by decide)).2.1,
     ((C9_findOrCreate_post demoStore 9 9 9).1 (by decide) (by decide)).2.2.1⟩,
   (C9_findOrCreate_post demoStore (-1) 0 0).2 ⟨2, by decide, by decide⟩⟩

/-- C10: negative coordinates under C's truncating division and remainder.
For `x = -1` the chunk coordinate is `-1 / 16 = 0` and the local offset is
`-1 % 16 = -1`; for the world coordinate `(-1, 0, 0)` the subscript computed
by `placeVoxel` and `removeVoxel` is `-1`, outside `[0, 4096)`, so the write
of either call lands outside the chunk's voxel array. -/
theorem C10_negative_coordinate :
    chunkCoord (-1) = 0 ∧ localOffset (-1) = -1 ∧ voxelIndex (-1) 0 0 = -1 ∧
      VOXEL_COUNT = 4096 ∧
      ¬ (0 ≤ voxelIndex (-1) 0 0 ∧ voxelIndex (-1) 0 0 < VOXEL_COUNT) ∧
      (findOrCreateChunk empty (chunkCoord (-1)) (chunkCoord 0) (chunkCoord 0)).2 = some 0 ∧
      placeVoxel empty (-1) 0 0 = none ∧ removeVoxel empty (-1) 0 0 = none := by
  refine ⟨by decide, by decide, by decide, by decide, by decide, by decide, rfl, rfl⟩

/-- C11: in-bounds local offset encoding.  For every world coordinate with
`x, y, z ≥ 0` the local offsets `x % 16`, `y % 16`, `z % 16` lie in `[0, 16)`,
each coordinate is `16 * (x / 16)` plus its local offset, `x / 16` is the
floor of the rational `x / 16`, and the subscript
`lx + ly*16 + lz*16*16` computed by `placeVoxel` and `removeVoxel` lies in
`[0, 4096)`, the extent of `voxels`; so both calls return on every store,
their write being inside the array. -/
theorem C11_local_offsets (x y z : Int) (hx : 0 ≤ x) (hy : 0 ≤ y) (hz : 0 ≤ z) :
    ((0 ≤ localOffset x ∧ localOffset x < 16) ∧
      (0 ≤ localOffset y ∧ localOffset y < 16) ∧
      (0 ≤ localOffset z ∧ localOffset z < 16)) ∧
    (x = 16 * chunkCoord x + localOffset x ∧
      y = 16 * chunkCoord y + localOffset y ∧
      z = 16 * chunkCoord z + localOffset z) ∧
    (chunkCoord x = ⌊(x : ℚ) / 16⌋ ∧ chunkCoord y = ⌊(y : ℚ) / 16⌋ ∧
      chunkCoord z = ⌊(z : ℚ) / 16⌋) ∧
    voxelIndex x y z = localOffset x + localOffset y * 16 + localOffset z * 16 * 16 ∧
    (0 ≤ voxelIndex x y z ∧ voxelIndex x y z < 4096 ∧ VOXEL_COUNT = 4096) ∧
    ∀ s : Store, (∃ s1, placeVoxel s x y z = some s1) ∧
      (∃ s1, removeVoxel s x y z = some s1) := by
  have hb := inBounds_of_nonneg hx hy hz
  have hlx := localOffset_eq_emod hx
  have hly := localOffset_eq_emod hy
  have hlz := localOffset_eq_emod hz
  have hcx := chunkCoord_eq_ediv hx
  have hcy := chunkCoord_eq_ediv hy
  have hcz := chunkCoord_eq_ediv hz
  refine ⟨⟨⟨?_, ?_⟩, ⟨?_, ?_⟩, ⟨?_, ?_⟩⟩, ⟨?_, ?_, ?_⟩,
    ⟨chunkCoord_eq_floor hx, chunkCoord_eq_floor hy, chunkCoord_eq_floor hz⟩, rfl,
    ⟨?_, ?_, by decide⟩, fun s => ⟨writeAt_defined s 1 hb, writeAt_defined s 0 hb⟩⟩
  all_goals
    simp only [voxelIndex, CHUNK_SIZE, hlx, hly, hlz]
    omega

theorem C11_local_offsets_witness :
    (0 : Int) ≤ 37 ∧ (0 : Int) ≤ 0 ∧ (0 : Int) ≤ 2147483647 ∧
      localOffset 37 = 5 ∧ chunkCoord 37 = 2 ∧
      voxelIndex 37 0 2147483647 = 5 + 0 * 16 + 15 * 16 * 16 ∧
      (0 ≤ voxelIndex 37 0 2147483647 ∧ voxelIndex 37 0 2147483647 < 4096 ∧
        VOXEL_COUNT = 4096) :=
  ⟨by decide, by decide, by decide, by decide, by decide, by decide,
    (C11_local_offsets 37 0 2147483647 (by decide) (by decide) (by decide)).2.2.2.2.1⟩

/-- C12: write isolation.  For every store satisfying the uniqueness
invariant and every two distinct world coordinates `p ≠ q` with all components
non-negative, `placeVoxel(p)` and `removeVoxel(p)` return and leave the value
read at `q` as it was (the byte at subscript `voxelIndex q` of the resident
chunk of `q`, or `0` when that chunk is not resident).  The map from
non-negative world coordinates to (chunk coordinate, subscript) separates `p`
and `q`; among the chunks resident before the call the only byte that can
differ afterwards is the one at subscript `voxelIndex p` of the chunk of `p`;
and the voxel assignment itself, when it is executed, sets its one byte and
leaves every other byte of every chunk as it was.  The proof does not use the
uniqueness invariant: write and read both take the first matching slot. -/
theorem C12_write_isolation (s : Store) (x y z x2 y2 z2 : Int) (_hu : Unique s)
    (hx : 0 ≤ x) (hy : 0 ≤ y) (hz : 0 ≤ z) (hx2 : 0 ≤ x2) (hy2 : 0 ≤ y2) (hz2 : 0 ≤ z2)
    (hne : (x, y, z) ≠ (x2, y2, z2)) :
    (∃ s1, placeVoxel s x y z = some s1 ∧
      readVoxel s1 x2 y2 z2 = readVoxel s x2 y2 z2 ∧
      ∀ k j, k < s.chunkCount → (s1.chunkMap k).voxels j ≠ (s.chunkMap k).voxels j →
        findChunk s (chunkCoord x) (chunkCoord y) (chunkCoord z) = some k ∧
          j = (voxelIndex x y z).toNat) ∧
    (∃ s1, removeVoxel s x y z = some s1 ∧
      readVoxel s1 x2 y2 z2 = readVoxel s x2 y2 z2 ∧
      ∀ k j, k < s.chunkCount → (s1.chunkMap k).voxels j ≠ (s.chunkMap k).voxels j →
        findChunk s (chunkCoord x) (chunkCoord y) (chunkCoord z) = some k ∧
          j = (voxelIndex x y z).toNat) ∧
    ((chunkCoord x, chunkCoord y, chunkCoord z), voxelIndex x y z) ≠
      ((chunkCoord x2, chunkCoord y2, chunkCoord z2), voxelIndex x2 y2 z2) ∧
    (∀ i idx v s1, writeVoxel s i idx v = some s1 →
      (s1.chunkMap i).voxels idx.toNat = v ∧
      ∀ k j, (k ≠ i ∨ j ≠ idx.toNat) →
        (s1.chunkMap k).voxels j = (s.chunkMap k).voxels j) := by
  refine ⟨writeAt_frame s 1 hx hy hz hx2 hy2 hz2 hne,
    writeAt_frame s 0 hx hy hz hx2 hy2 hz2 hne, ?_, ?_⟩
  · intro h
    rw [Prod.mk.injEq] at h
    exact hne (mapping_inj hx hy hz hx2 hy2 hz2 h.1 h.2)
  · intro i idx v s1 hw
    obtain ⟨_, hoth, hby⟩ := writeVoxel_bytes hw
    refine ⟨by rw [hby, if_pos rfl], ?_⟩
    intro k j hkj
    by_cases hki : k = i
    · subst hki
      have hj : j ≠ idx.toNat := hkj.resolve_left (fun h => h rfl)
      rw [hby, if_neg hj]
    · rw [hoth k hki]

theorem C12_write_isolation_witness :
    Unique boundaryStore ∧ ((14, 15, 15) : Int × Int × Int) ≠ (15, 15, 15) ∧
      readVoxel boundaryStore 15 15 15 = some 1 ∧
      (∃ s1, removeVoxel boundaryStore 14 15 15 = some s1 ∧
        readVoxel s1 15 15 15 = readVoxel boundaryStore 15 15 15) ∧
      ((chunkCoord 14, chunkCoord 15, chunkCoord 15), voxelIndex 14 15 15) ≠
        ((chunkCoord 15, chunkCoord 15, chunkCoord 15), voxelIndex 15 15 15) :=
  ⟨run_unique (rfl : run empty [Call.place 15 15 15, Call.place 16 16 16] = some boundaryStore)
      empty_unique,
    by decide, by decide,
    ((C12_write_isolation boundaryStore 14 15 15 15 15 15
      (run_unique (rfl : run empty [Call.place 15 15 15, Call.place 16 16 16]
        = some boundaryStore) empty_unique)
      (by decide) (by decide) (by decide) (by decide) (by decide) (by decide)
      (by decide)).2.1).imp (fun _ h => ⟨h.1, h.2.1⟩),
    (C12_write_isolation boundaryStore 14 15 15 15 15 15
      (run_unique (rfl : run empty [Call.place 15 15 15, Call.place 16 16 16]
        = some boundaryStore) empty_unique)
      (by decide) (by decide) (by decide) (by decide) (by decide) (by decide)
      (by decide)).2.2.1⟩

end VoxelStore
